import Mathlib

/-!
# Verification of the ND2 conversion core

Shallow embedding of the image-extraction and batch-conversion core of the
repository (`Pybis/ND2toOpenbis`): frame indexing, intensity windowing,
batch task enumeration with output naming, per-frame failure isolation,
the black/white-point store lookup, and the composite grid builder.
Machine arithmetic is modelled over `Nat`/`Int`/`Rat` with explicit
wraparound where the source's fixed-width integer types overflow.
-/

set_option autoImplicit false

namespace ND2

/-- Acquisition dimensions as read from the ND2 file's `sizes` mapping,
with the source's `.get(axis, 1)` defaulting already applied:
`P` positions, `T` time points, `Z` depth, `C` channels. -/
structure Dimensions where
  P : Nat
  T : Nat
  Z : Nat
  C : Nat
deriving Repr, DecidableEq

/-- Function `calculate_frame_index2D` from `nd2to8bitpng.py`:
`position_idx + t_idx * dimensions['P']`. -/
def calculate_frame_index2D (dims : Dimensions) (position_idx t_idx _z_idx : Nat) : Nat :=
  position_idx + t_idx * dims.P

/-- Function `calculate_frame_index3D` from `nd2to8bitpng.py`:
`z_idx + position_idx * dimensions['Z'] + t_idx * dimensions['P'] * dimensions['Z']`. -/
def calculate_frame_index3D (dims : Dimensions) (position_idx t_idx z_idx : Nat) : Nat :=
  z_idx + position_idx * dims.Z + t_idx * dims.P * dims.Z

/-- Function `calculate_frame_index` from `ND2imageextraction.py`: chooses the
degenerate-depth formula when `Z == 1`, the full formula otherwise. -/
def calculate_frame_index (dims : Dimensions) (position_idx t_idx z_idx : Nat) : Nat :=
  if dims.Z = 1 then
    position_idx + t_idx * dims.P
  else
    z_idx + position_idx * dims.Z + t_idx * dims.P * dims.Z

/-- Mixed-radix normal form shared by both branches of the index function:
`z + Z * (p + P * t)`. -/
def indexEncode (Z P : Nat) (z p t : Nat) : Nat :=
  z + Z * (p + P * t)

lemma calculate_frame_index_eq_encode (dims : Dimensions) (p t z : Nat)
    (hz : z < dims.Z) :
    calculate_frame_index dims p t z = indexEncode dims.Z dims.P z p t := by
  unfold calculate_frame_index indexEncode
  split
  · rename_i h1
    have hz0 : z = 0 := by omega
    subst hz0
    rw [h1]
    ring
  · ring

lemma indexEncode_lt (Z P T : Nat) (z p t : Nat)
    (hz : z < Z) (hp : p < P) (ht : t < T) :
    indexEncode Z P z p t < P * T * Z := by
  unfold indexEncode
  have h1 : p + P * t < P * T := by
    calc p + P * t < P + P * t := by omega
    _ = P * (t + 1) := by ring
    _ ≤ P * T := Nat.mul_le_mul_left P ht
  calc z + Z * (p + P * t) < Z + Z * (p + P * t) := by omega
  _ = Z * (p + P * t + 1) := by ring
  _ ≤ Z * (P * T) := Nat.mul_le_mul_left Z h1
  _ = P * T * Z := by ring

lemma indexEncode_inj (Z P : Nat) (z p t z' p' t' : Nat)
    (hz : z < Z) (hp : p < P) (hz' : z' < Z) (hp' : p' < P)
    (heq : indexEncode Z P z p t = indexEncode Z P z' p' t') :
    z = z' ∧ p = p' ∧ t = t' := by
  unfold indexEncode at heq
  have hZ : 0 < Z := by omega
  have hP : 0 < P := by omega
  have hmodZ : (z + Z * (p + P * t)) % Z = z := by
    rw [Nat.add_mul_mod_self_left, Nat.mod_eq_of_lt hz]
  have hmodZ' : (z' + Z * (p' + P * t')) % Z = z' := by
    rw [Nat.add_mul_mod_self_left, Nat.mod_eq_of_lt hz']
  have hzz : z = z' := by rw [← hmodZ, ← hmodZ', heq]
  have hdivZ : (z + Z * (p + P * t)) / Z = p + P * t := by
    rw [Nat.add_mul_div_left _ _ hZ, Nat.div_eq_of_lt hz]
    simp
  have hdivZ' : (z' + Z * (p' + P * t')) / Z = p' + P * t' := by
    rw [Nat.add_mul_div_left _ _ hZ, Nat.div_eq_of_lt hz']
    simp
  have ha : p + P * t = p' + P * t' := by rw [← hdivZ, ← hdivZ', heq]
  have hmodP : (p + P * t) % P = p := by
    rw [Nat.add_mul_mod_self_left, Nat.mod_eq_of_lt hp]
  have hmodP' : (p' + P * t') % P = p' := by
    rw [Nat.add_mul_mod_self_left, Nat.mod_eq_of_lt hp']
  have hpp : p = p' := by rw [← hmodP, ← hmodP', ha]
  refine ⟨hzz, hpp, ?_⟩
  have : P * t = P * t' := by omega
  exact Nat.eq_of_mul_eq_mul_left hP this

lemma indexEncode_surj (Z P T : Nat) (hZ : 0 < Z) (hP : 0 < P)
    (n : Nat) (hn : n < P * T * Z) :
    ∃ z p t, z < Z ∧ p < P ∧ t < T ∧ indexEncode Z P z p t = n := by
  refine ⟨n % Z, (n / Z) % P, (n / Z) / P, Nat.mod_lt _ hZ, Nat.mod_lt _ hP, ?_, ?_⟩
  · have h1 : n / Z < P * T := by
      rw [Nat.div_lt_iff_lt_mul hZ]
      calc n < P * T * Z := hn
      _ = P * T * Z := rfl
    have h2 : (n / Z) / P < T := by
      rw [Nat.div_lt_iff_lt_mul hP]
      calc n / Z < P * T := h1
      _ = T * P := by ring
    exact h2
  · unfold indexEncode
    have e1 : (n / Z) % P + P * ((n / Z) / P) = n / Z := Nat.mod_add_div _ _
    rw [e1]
    exact Nat.mod_add_div n Z

/-- C1: for extents `P, T, Z ≥ 1` and in-range coordinates, the frame-index
function returns `position + time * P` when `Z = 1` and
`z + position * Z + time * P * Z` when `Z > 1`; over the full coordinate
space the indices are pairwise distinct and cover exactly `[0, P*T*Z)`. -/
theorem frame_index_formula_bijective (dims : Dimensions)
    (hP : 1 ≤ dims.P) (hT : 1 ≤ dims.T) (hZ : 1 ≤ dims.Z) :
    (∀ p t z, p < dims.P → t < dims.T → z < dims.Z →
      calculate_frame_index dims p t z =
        if dims.Z = 1 then p + t * dims.P
        else z + p * dims.Z + t * dims.P * dims.Z) ∧
    (∀ p t z, calculate_frame_index dims p t z =
      if dims.Z = 1 then calculate_frame_index2D dims p t z
      else calculate_frame_index3D dims p t z) ∧
    (∀ p t z, p < dims.P → t < dims.T → z < dims.Z →
      calculate_frame_index dims p t z < dims.P * dims.T * dims.Z) ∧
    (∀ p t z p' t' z', p < dims.P → t < dims.T → z < dims.Z →
      p' < dims.P → t' < dims.T → z' < dims.Z →
      calculate_frame_index dims p t z = calculate_frame_index dims p' t' z' →
      p = p' ∧ t = t' ∧ z = z') ∧
    (∀ n, n < dims.P * dims.T * dims.Z →
      ∃ p t z, p < dims.P ∧ t < dims.T ∧ z < dims.Z ∧
        calculate_frame_index dims p t z = n) := by
  refine ⟨?_, ?_, ?_, ?_, ?_⟩
  · intro p t z _ _ _
    rfl
  · intro p t z
    unfold calculate_frame_index calculate_frame_index2D calculate_frame_index3D
    split <;> rfl
  · intro p t z hp ht hz
    rw [calculate_frame_index_eq_encode dims p t z hz]
    exact indexEncode_lt _ _ _ _ _ _ hz hp ht
  · intro p t z p' t' z' hp ht hz hp' ht' hz' heq
    rw [calculate_frame_index_eq_encode dims p t z hz,
        calculate_frame_index_eq_encode dims p' t' z' hz'] at heq
    obtain ⟨h1, h2, h3⟩ := indexEncode_inj _ _ _ _ _ _ _ _ hz hp hz' hp' heq
    exact ⟨h2, h3, h1⟩
  · intro n hn
    obtain ⟨z, p, t, hz, hp, ht, he⟩ :=
      indexEncode_surj dims.Z dims.P dims.T hZ hP n hn
    exact ⟨p, t, z, hp, ht, hz,
      by rw [calculate_frame_index_eq_encode dims p t z hz]; exact he⟩

/-- Witness for `frame_index_formula_bijective` at `P = 2, T = 3, Z = 2`. -/
theorem frame_index_formula_bijective_witness :
    1 ≤ 2 ∧ 1 ≤ 3 ∧
    calculate_frame_index ⟨2, 3, 2, 1⟩ 1 2 1 =
      if (2 : Nat) = 1 then 1 + 2 * 2 else 1 + 1 * 2 + 2 * 2 * 2 := by
  refine ⟨by decide, by decide, ?_⟩
  exact (frame_index_formula_bijective ⟨2, 3, 2, 1⟩ (by decide) (by decide)
    (by decide)).1 1 2 1 (by decide) (by decide) (by decide)

/-!
## Intensity windowing (`adjust_image_to_black_white` in `nd2to8bitpng.py`)

The source computes, on a `uint16` numpy array:
`np.clip(image, vmin, vmax)`, then
`((adjusted - vmin) / max(1, vmax - vmin) * 255).astype(np.uint8)`.
The embedding works element-wise over `ℤ`: `np.clip` is `min (max x vmin) vmax`;
the `uint16` subtraction wraps modulo `2^16`; the true division is exact
rational division; `.astype(np.uint8)` truncates toward zero (equal to the
floor, since the scaled value is nonnegative here) and wraps modulo `2^8`. -/

/-- One element of `adjust_image_to_black_white`: clip, wrapped uint16
subtract, exact division by `max 1 (vmax - vmin)`, scale by 255, uint8 cast. -/
def adjust_pixel (vmin vmax : ℤ) (x : ℤ) : ℤ :=
  ⌊(((min (max x vmin) vmax - vmin) % 65536 : ℤ) : ℚ)
      / ((max 1 (vmax - vmin) : ℤ) : ℚ) * 255⌋ % 256

/-- Function `adjust_image_to_black_white` from `nd2to8bitpng.py`, element-wise on the
flattened sample array. -/
def adjust_image_to_black_white (image : List ℤ) (vmin vmax : ℤ) : List ℤ :=
  image.map (adjust_pixel vmin vmax)

lemma adjust_pixel_eq_floor (vmin vmax x : ℤ)
    (h0 : 0 ≤ vmin) (hlt : vmin ≤ vmax) (h65 : vmax ≤ 65535) :
    adjust_pixel vmin vmax x =
      ⌊((min (max x vmin) vmax - vmin : ℤ) : ℚ) *
        (255 / ((max 1 (vmax - vmin) : ℤ) : ℚ))⌋ := by
  unfold adjust_pixel
  have ha1 : vmin ≤ min (max x vmin) vmax := le_min (le_max_right x vmin) hlt
  have ha2 : min (max x vmin) vmax ≤ vmax := min_le_right _ _
  have hdiff : (min (max x vmin) vmax - vmin) % 65536
      = min (max x vmin) vmax - vmin := by
    apply Int.emod_eq_of_lt <;> omega
  rw [hdiff]
  set d : ℤ := min (max x vmin) vmax - vmin with hd
  have hD1 : (1 : ℤ) ≤ max 1 (vmax - vmin) := le_max_left _ _
  have hdD : d ≤ max 1 (vmax - vmin) := by
    rcases le_max_iff.mp (le_refl (max 1 (vmax - vmin))) with _ | _ <;> omega
  have hDq : (0 : ℚ) < ((max 1 (vmax - vmin) : ℤ) : ℚ) := by
    exact_mod_cast lt_of_lt_of_le one_pos hD1
  have hdq0 : (0 : ℚ) ≤ (d : ℚ) := by exact_mod_cast (by omega : (0:ℤ) ≤ d)
  have hdqD : (d : ℚ) ≤ ((max 1 (vmax - vmin) : ℤ) : ℚ) := by exact_mod_cast hdD
  have hsc0 : (0 : ℚ) ≤ (d : ℚ) / ((max 1 (vmax - vmin) : ℤ) : ℚ) * 255 := by
    positivity
  have hsc255 : (d : ℚ) / ((max 1 (vmax - vmin) : ℤ) : ℚ) * 255 ≤ 255 := by
    have hr : (d : ℚ) / ((max 1 (vmax - vmin) : ℤ) : ℚ) ≤ 1 :=
      (div_le_one hDq).mpr hdqD
    nlinarith
  have hf0 : (0 : ℤ) ≤ ⌊(d : ℚ) / ((max 1 (vmax - vmin) : ℤ) : ℚ) * 255⌋ :=
    Int.floor_nonneg.mpr hsc0
  have hf255 : ⌊(d : ℚ) / ((max 1 (vmax - vmin) : ℤ) : ℚ) * 255⌋ ≤ 255 := by
    have := Int.floor_le_floor hsc255
    simpa using this
  have hmod : ⌊(d : ℚ) / ((max 1 (vmax - vmin) : ℤ) : ℚ) * 255⌋ % 256
      = ⌊(d : ℚ) / ((max 1 (vmax - vmin) : ℤ) : ℚ) * 255⌋ := by
    apply Int.emod_eq_of_lt hf0 (by omega)
  rw [hmod]
  congr 1
  ring

/-- C4: on a uint16 sample array with a valid window `vmin < vmax`, the
windowing function clips each element to `[vmin, vmax]` and maps it by
`scale = 255 / max 1 (vmax - vmin)` with truncation (floor of a nonnegative
value), sending `vmin` to `0` and `vmax` to `255`. -/
theorem windowing_clip_scale_truncate (image : List ℤ) (vmin vmax : ℤ)
    (himg : ∀ x ∈ image, 0 ≤ x ∧ x ≤ 65535)
    (h0 : 0 ≤ vmin) (hlt : vmin < vmax) (h65 : vmax ≤ 65535) :
    adjust_image_to_black_white image vmin vmax =
      image.map (fun x =>
        ⌊((min (max x vmin) vmax - vmin : ℤ) : ℚ) *
          (255 / ((max 1 (vmax - vmin) : ℤ) : ℚ))⌋) ∧
    adjust_pixel vmin vmax vmin = 0 ∧
    adjust_pixel vmin vmax vmax = 255 := by
  have hle : vmin ≤ vmax := le_of_lt hlt
  refine ⟨?_, ?_, ?_⟩
  · unfold adjust_image_to_black_white
    apply List.map_congr_left
    intro x _
    exact adjust_pixel_eq_floor vmin vmax x h0 hle h65
  · rw [adjust_pixel_eq_floor vmin vmax vmin h0 hle h65]
    rw [max_self, min_eq_left hle]
    simp
  · rw [adjust_pixel_eq_floor vmin vmax vmax h0 hle h65]
    rw [max_eq_left hle, min_self]
    have hDmax : max 1 (vmax - vmin) = vmax - vmin := max_eq_right (by omega)
    rw [hDmax]
    have hne : ((vmax - vmin : ℤ) : ℚ) ≠ 0 := by
      have : (0 : ℤ) < vmax - vmin := by omega
      exact_mod_cast ne_of_gt this
    rw [mul_comm, div_mul_cancel₀ _ hne]
    norm_num

/-- Witness for `windowing_clip_scale_truncate` at `image = [0, 150, 65535]`,
`vmin = 100`, `vmax = 200`. -/
theorem windowing_clip_scale_truncate_witness :
    adjust_image_to_black_white [0, 150, 65535] 100 200 =
      [0, 150, 65535].map (fun x =>
        ⌊((min (max x 100) 200 - 100 : ℤ) : ℚ) *
          (255 / ((max 1 (200 - 100) : ℤ) : ℚ))⌋) ∧
    adjust_pixel 100 200 100 = 0 ∧
    adjust_pixel 100 200 200 = 255 :=
  windowing_clip_scale_truncate [0, 150, 65535] 100 200
    (by decide) (by decide) (by decide) (by decide)

lemma adjust_pixel_same (vmin x : ℤ) : adjust_pixel vmin vmin x = 0 := by
  unfold adjust_pixel
  have h1 : min (max x vmin) vmin = vmin := by
    rcases le_or_lt x vmin with h | h
    · rw [max_eq_right h, min_self]
    · rw [max_eq_left (le_of_lt h), min_eq_right (le_of_lt h)]
  rw [h1]
  simp

/-- C5: windowing with `vmin = vmax` returns the all-zero array (the divisor
`max 1 (vmax - vmin)` stays positive, so no division by zero occurs), and the
full-range window `vmin = 0, vmax = 65535` maps each element `x` of a uint16
array to `x / 257` (floor division). -/
theorem windowing_degenerate_zero_and_fullrange_div257
    (image : List ℤ) (vmin : ℤ)
    (himg : ∀ x ∈ image, 0 ≤ x ∧ x ≤ 65535) :
    adjust_image_to_black_white image vmin vmin = image.map (fun _ => 0) ∧
    (0 : ℤ) < max 1 (vmin - vmin) ∧
    adjust_image_to_black_white image 0 65535 = image.map (fun x => x / 257) := by
  refine ⟨?_, by simp, ?_⟩
  · unfold adjust_image_to_black_white
    apply List.map_congr_left
    intro x _
    exact adjust_pixel_same vmin x
  · unfold adjust_image_to_black_white
    apply List.map_congr_left
    intro x hx
    obtain ⟨hx0, hx65⟩ := himg x hx
    rw [adjust_pixel_eq_floor 0 65535 x (by omega) (by omega) (by omega)]
    have h1 : min (max x 0) 65535 = x := by
      rw [max_eq_left hx0, min_eq_left hx65]
    rw [h1]
    have h2 : max (1 : ℤ) (65535 - 0) = 65535 := by decide
    rw [h2]
    have h3 : ((x - 0 : ℤ) : ℚ) * (255 / ((65535 : ℤ) : ℚ))
        = ((x * 255 : ℤ) : ℚ) / ((65535 : ℕ) : ℚ) := by
      push_cast
      ring
    rw [h3, Rat.floor_intCast_div_natCast]
    have h4 : x * 255 / ((65535 : ℕ) : ℤ) = 255 * x / (255 * 257) := by
      norm_num
      ring_nf
    rw [h4, Int.mul_ediv_mul_of_pos x 257 (by norm_num : (0:ℤ) < 255)]

/-- Witness for `windowing_degenerate_zero_and_fullrange_div257` at
`image = [0, 256, 257, 65535]`, `vmin = 7`. -/
theorem windowing_degenerate_zero_and_fullrange_div257_witness :
    adjust_image_to_black_white [0, 256, 257, 65535] 7 7 =
      [0, 256, 257, 65535].map (fun _ => 0) ∧
    (0 : ℤ) < max 1 (7 - 7) ∧
    adjust_image_to_black_white [0, 256, 257, 65535] 0 65535 =
      [0, 256, 257, 65535].map (fun x => x / 257) :=
  windowing_degenerate_zero_and_fullrange_div257 [0, 256, 257, 65535] 7
    (by decide)

/-- C6 counterexample: with window `(100, 200)` and the already-clamped
input `[150]` (every element in `[0, 255]`), applying the windowing function
twice differs from applying it once: one application gives `[127]`, a second
gives `[68]`. -/
theorem windowing_idempotence_counterexample :
    (∀ x ∈ [(150 : ℤ)], 0 ≤ x ∧ x ≤ 255) ∧
    adjust_image_to_black_white [(150 : ℤ)] 100 200 = [127] ∧
    adjust_image_to_black_white
        (adjust_image_to_black_white [(150 : ℤ)] 100 200) 100 200 = [68] ∧
    adjust_image_to_black_white
        (adjust_image_to_black_white [(150 : ℤ)] 100 200) 100 200 ≠
      adjust_image_to_black_white [(150 : ℤ)] 100 200 := by
  have h1 : adjust_image_to_black_white [(150 : ℤ)] 100 200 = [127] := by
    norm_num [adjust_image_to_black_white, adjust_pixel, min_def, max_def]
  have h2 : adjust_image_to_black_white [(127 : ℤ)] 100 200 = [68] := by
    norm_num [adjust_image_to_black_white, adjust_pixel, min_def, max_def]
  refine ⟨by decide, h1, by rw [h1]; exact h2, by rw [h1, h2]; decide⟩

lemma adjust_pixel_fullrange_id (x : ℤ) (h0 : 0 ≤ x) (h255 : x ≤ 255) :
    adjust_pixel 0 255 x = x := by
  rw [adjust_pixel_eq_floor 0 255 x (by omega) (by omega) (by omega)]
  have h1 : min (max x 0) 255 = x := by
    rw [max_eq_left h0, min_eq_left h255]
  rw [h1]
  have h2 : max (1 : ℤ) (255 - 0) = 255 := by decide
  rw [h2]
  have h3 : ((x - 0 : ℤ) : ℚ) * (255 / ((255 : ℤ) : ℚ)) = (x : ℤ) := by
    push_cast
    ring
  rw [h3, Int.floor_intCast]

/-- C6 amended: re-application with the same bounds is the identity on the
first application's output when the window is the full output range
`vmin = 0, vmax = 255`; for an input already clamped to `[0, 255]`, applying
the windowing function twice then equals applying it once. -/
theorem windowing_idempotent_fullrange (image : List ℤ)
    (himg : ∀ x ∈ image, 0 ≤ x ∧ x ≤ 255) :
    adjust_image_to_black_white
        (adjust_image_to_black_white image 0 255) 0 255 =
      adjust_image_to_black_white image 0 255 := by
  have hid : adjust_image_to_black_white image 0 255 = image := by
    unfold adjust_image_to_black_white
    have : image.map (adjust_pixel 0 255) = image.map id := by
      apply List.map_congr_left
      intro x hx
      obtain ⟨hx0, hx255⟩ := himg x hx
      simpa using adjust_pixel_fullrange_id x hx0 hx255
    simpa using this
  rw [hid, hid]

/-- Witness for `windowing_idempotent_fullrange` at `image = [0, 100, 255]`. -/
theorem windowing_idempotent_fullrange_witness :
    adjust_image_to_black_white
        (adjust_image_to_black_white [0, 100, 255] 0 255) 0 255 =
      adjust_image_to_black_white [0, 100, 255] 0 255 :=
  windowing_idempotent_fullrange [0, 100, 255] (by decide)

/-!
## Batch task enumeration (`process_nd2_images_multithreaded` in
`nd2to8bitpng.py`)

The batch converter loads the black/white-point store, derives the PNG
compression level from a 0-100 compression percent, and enumerates one task
per `(position, time, z, channel)` with a deterministic save path. Python's
`round` (round half to even) and `f"{n:04d}"` zero padding are embedded
explicitly.
-/

/-- Python `f"{n:0wd}"` for a nonnegative `n`: decimal digits left-padded
with zeros to width `w` (wider numbers keep all their digits). -/
def padZeros (w : Nat) (n : Nat) : String :=
  let s := Nat.repr n
  String.mk (List.replicate (w - s.length) '0') ++ s

/-- The batch output filename
`f"{date}{initials}_p{p+1:04d}_t{t+1:05d}_z{z+1:03d}_w{c:02d}.png"`. -/
def frameFilename (date initials : String) (p t z c : Nat) : String :=
  date ++ initials ++ "_p" ++ padZeros 4 (p + 1) ++ "_t" ++ padZeros 5 (t + 1)
    ++ "_z" ++ padZeros 3 (z + 1) ++ "_w" ++ padZeros 2 c ++ ".png"

/-- The per-position folder name `f"{date}{initials}_p{p+1:04d}"`. -/
def positionFolderName (date initials : String) (p : Nat) : String :=
  date ++ initials ++ "_p" ++ padZeros 4 (p + 1)

/-- One value of the black/white-point store: a JSON object that may or may
not carry `"Min"` and `"Max"` fields. -/
structure BWEntry where
  Min : Option Int
  Max : Option Int
deriving Repr, DecidableEq

/-- Source lookup `black_white_points.get(f"Channel_{channel}", {}).get("Min", 0)`. -/
def getVmin (store : List (String × BWEntry)) (c : Nat) : Int :=
  match store.lookup ("Channel_" ++ Nat.repr c) with
  | some e => e.Min.getD 0
  | none => 0

/-- Source lookup `black_white_points.get(f"Channel_{channel}", {}).get("Max", 65535)`. -/
def getVmax (store : List (String × BWEntry)) (c : Nat) : Int :=
  match store.lookup ("Channel_" ++ Nat.repr c) with
  | some e => e.Max.getD 65535
  | none => 65535

/-- Python 3 `round` on an exact value: round half to even. -/
def pythonRound (q : ℚ) : ℤ :=
  if q - ⌊q⌋ = 1 / 2 then (if Even ⌊q⌋ then ⌊q⌋ else ⌊q⌋ + 1)
  else ⌊q + 1 / 2⌋

/-- Source formula `compress_level = round((100 - compression_percent) / 100 * 9)`. -/
def compress_level_of (percent : ℚ) : ℤ :=
  pythonRound ((100 - percent) / 100 * 9)

/-- One entry of the `tasks` list built by the batch converter:
`(position_idx, t_idx, z_idx, channel, vmin, vmax, save_path, compress_level)`. -/
structure FrameTask where
  position : Nat
  time : Nat
  z : Nat
  channel : Nat
  vmin : Int
  vmax : Int
  save_path : String
  compress_level : Int
deriving Repr, DecidableEq

/-- The task built for coordinate `(p, t, z, c)`. -/
def mkTask (store : List (String × BWEntry)) (date initials output_dir : String)
    (lvl : Int) (p t z c : Nat) : FrameTask :=
  { position := p, time := t, z := z, channel := c,
    vmin := getVmin store c, vmax := getVmax store c,
    save_path := output_dir ++ "/" ++ positionFolderName date initials p
      ++ "/" ++ frameFilename date initials p t z c,
    compress_level := lvl }

/-- The nested task-enumeration loops of `process_nd2_images_multithreaded`:
positions, then time points, then z, then channels. -/
def enumerateTasks (dims : Dimensions) (store : List (String × BWEntry))
    (date initials output_dir : String) (lvl : Int) : List FrameTask :=
  (List.range dims.P).flatMap fun p =>
    (List.range dims.T).flatMap fun t =>
      (List.range dims.Z).flatMap fun z =>
        (List.range dims.C).map fun c =>
          mkTask store date initials output_dir lvl p t z c

lemma length_flatMap_const {α : Type} (n k : Nat) (f : Nat → List α)
    (h : ∀ i, (f i).length = k) :
    ((List.range n).flatMap f).length = n * k := by
  induction n with
  | zero => simp
  | succ m ih =>
    rw [List.range_succ, List.flatMap_append]
    simp only [List.length_append, ih, List.flatMap_cons, List.flatMap_nil,
      List.append_nil, h m]
    ring

lemma enumerateTasks_length (dims : Dimensions) (store : List (String × BWEntry))
    (date initials output_dir : String) (lvl : Int) :
    (enumerateTasks dims store date initials output_dir lvl).length =
      dims.P * dims.T * dims.Z * dims.C := by
  unfold enumerateTasks
  rw [length_flatMap_const dims.P (dims.T * dims.Z * dims.C)]
  · ring
  intro p
  rw [length_flatMap_const dims.T (dims.Z * dims.C)]
  · ring
  intro t
  rw [length_flatMap_const dims.Z dims.C]
  intro z
  simp

lemma mem_enumerateTasks_iff (dims : Dimensions) (store : List (String × BWEntry))
    (date initials output_dir : String) (lvl : Int) (tk : FrameTask) :
    tk ∈ enumerateTasks dims store date initials output_dir lvl ↔
      ∃ p t z c, p < dims.P ∧ t < dims.T ∧ z < dims.Z ∧ c < dims.C ∧
        tk = mkTask store date initials output_dir lvl p t z c := by
  unfold enumerateTasks
  simp only [List.mem_flatMap, List.mem_map, List.mem_range]
  constructor
  · rintro ⟨p, hp, t, ht, z, hz, c, hc, he⟩
    exact ⟨p, t, z, c, hp, ht, hz, hc, he.symm⟩
  · rintro ⟨p, t, z, c, hp, ht, hz, hc, he⟩
    exact ⟨p, hp, t, ht, z, hz, c, hc, he.symm⟩

/-- C2: the batch converter enumerates exactly `P*T*Z*C` tasks, one per
element of the Cartesian product, with the save path
`<output_dir>/<date><initials>_p<p+1:04d>/<date><initials>_p<p+1:04d>_t<t+1:05d>_z<z+1:03d>_w<c:02d>.png`;
for `P = 2, T = 2, Z = 1, C = 1` exactly the four expected filenames appear,
in order. -/
theorem batch_task_enumeration (dims : Dimensions)
    (store : List (String × BWEntry)) (date initials output_dir : String)
    (lvl : Int) :
    (enumerateTasks dims store date initials output_dir lvl).length =
        dims.P * dims.T * dims.Z * dims.C ∧
    (∀ tk ∈ enumerateTasks dims store date initials output_dir lvl,
      tk.position < dims.P ∧ tk.time < dims.T ∧ tk.z < dims.Z ∧
      tk.channel < dims.C ∧
      tk.save_path = output_dir ++ "/"
        ++ positionFolderName date initials tk.position ++ "/"
        ++ frameFilename date initials tk.position tk.time tk.z tk.channel) ∧
    (∀ p t z c, p < dims.P → t < dims.T → z < dims.Z → c < dims.C →
      mkTask store date initials output_dir lvl p t z c ∈
        enumerateTasks dims store date initials output_dir lvl) ∧
    (∀ tk ∈ enumerateTasks dims store date initials output_dir lvl,
      ∀ tk2 ∈ enumerateTasks dims store date initials output_dir lvl,
      tk.position = tk2.position → tk.time = tk2.time → tk.z = tk2.z →
      tk.channel = tk2.channel → tk = tk2) ∧
    (enumerateTasks ⟨2, 2, 1, 1⟩ [] "241203" "AB" "out" 0).map
        FrameTask.save_path =
      ["out/241203AB_p0001/241203AB_p0001_t00001_z001_w00.png",
       "out/241203AB_p0001/241203AB_p0001_t00002_z001_w00.png",
       "out/241203AB_p0002/241203AB_p0002_t00001_z001_w00.png",
       "out/241203AB_p0002/241203AB_p0002_t00002_z001_w00.png"] := by
  refine ⟨enumerateTasks_length dims store date initials output_dir lvl,
    ?_, ?_, ?_, by decide⟩
  · intro tk htk
    obtain ⟨p, t, z, c, hp, ht, hz, hc, he⟩ :=
      (mem_enumerateTasks_iff dims store date initials output_dir lvl tk).mp htk
    subst he
    exact ⟨hp, ht, hz, hc, rfl⟩
  · intro p t z c hp ht hz hc
    exact (mem_enumerateTasks_iff dims store date initials output_dir lvl
      _).mpr ⟨p, t, z, c, hp, ht, hz, hc, rfl⟩
  · intro tk htk tk2 htk2 h1 h2 h3 h4
    obtain ⟨p, t, z, c, _, _, _, _, he⟩ :=
      (mem_enumerateTasks_iff dims store date initials output_dir lvl tk).mp htk
    obtain ⟨p2, t2, z2, c2, _, _, _, _, he2⟩ :=
      (mem_enumerateTasks_iff dims store date initials output_dir lvl
        tk2).mp htk2
    subst he he2
    simp only [mkTask] at h1 h2 h3 h4
    subst h1 h2 h3 h4
    rfl

lemma pythonRound_nonneg (q : ℚ) (h : 0 ≤ q) : 0 ≤ pythonRound q := by
  unfold pythonRound
  have hf : (0 : ℤ) ≤ ⌊q⌋ := Int.floor_nonneg.mpr h
  split
  · split <;> omega
  · have : (0 : ℤ) ≤ ⌊q + 1 / 2⌋ := Int.floor_nonneg.mpr (by linarith)
    omega

lemma pythonRound_le (q : ℚ) (n : ℤ) (h : q ≤ n) : pythonRound q ≤ n := by
  unfold pythonRound
  split
  · rename_i hh
    have hne : ⌊q⌋ < n := by
      have h1 : (⌊q⌋ : ℚ) = q - 1 / 2 := by linarith
      have h2 : (⌊q⌋ : ℚ) < (n : ℚ) := by
        rw [h1]; linarith
      exact_mod_cast h2
    split <;> omega
  · have h1 : q + 1 / 2 < (n : ℚ) + 1 := by linarith
    have h2 : ⌊q + 1 / 2⌋ < n + 1 := by
      rw [Int.floor_lt]
      push_cast
      linarith
    omega

/-- C8: for a compression percent in `[0, 100]`, the derived write
compression level is `round((100 - percent) / 100 * 9)`, lying in `[0, 9]`
with `percent = 100 ↦ 0` (no compression) and `percent = 0 ↦ 9` (maximum),
and this level is carried by every task of the batch. -/
theorem compression_level_mapping (percent : ℚ)
    (h0 : 0 ≤ percent) (h100 : percent ≤ 100) :
    compress_level_of percent = pythonRound ((100 - percent) / 100 * 9) ∧
    0 ≤ compress_level_of percent ∧ compress_level_of percent ≤ 9 ∧
    compress_level_of 100 = 0 ∧ compress_level_of 0 = 9 ∧
    (∀ dims store date initials output_dir,
      ∀ tk ∈ enumerateTasks dims store date initials output_dir
          (compress_level_of percent),
        tk.compress_level = compress_level_of percent) := by
  have e100 : compress_level_of 100 = 0 := by
    unfold compress_level_of pythonRound
    norm_num
  have e0 : compress_level_of 0 = 9 := by
    unfold compress_level_of pythonRound
    norm_num
  refine ⟨rfl, ?_, ?_, e100, e0, ?_⟩
  · apply pythonRound_nonneg
    have : (0 : ℚ) ≤ 100 - percent := by linarith
    positivity
  · apply pythonRound_le
    have h1 : (100 - percent) / 100 ≤ 1 := by
      rw [div_le_one (by norm_num : (0:ℚ) < 100)]
      linarith
    push_cast
    nlinarith
  · intro dims store date initials output_dir tk htk
    obtain ⟨p, t, z, c, _, _, _, _, he⟩ :=
      (mem_enumerateTasks_iff dims store date initials output_dir _ tk).mp htk
    subst he
    rfl

/-- Witness for `compression_level_mapping` at `percent = 50` (the half-way
case rounds to even: level 4). -/
theorem compression_level_mapping_witness :
    compress_level_of 50 = pythonRound ((100 - 50) / 100 * 9) ∧
    0 ≤ compress_level_of 50 ∧ compress_level_of 50 ≤ 9 ∧
    compress_level_of 100 = 0 ∧ compress_level_of 0 = 9 ∧
    (∀ dims store date initials output_dir,
      ∀ tk ∈ enumerateTasks dims store date initials output_dir
          (compress_level_of 50),
        tk.compress_level = compress_level_of 50) :=
  compression_level_mapping 50 (by norm_num) (by norm_num)

/-!
## Calibration-store keys (`Adjustblackwhitepoints.py`)

`adjust_black_white_cv2` keys its saved mapping by the basename of each
`.png` image it processed (`black_white_points[image_name] = {...}`), while
the batch converter looks entries up under `f"Channel_{channel}"`. Every
calibration key ends in `".png"`, while a `"Channel_<digits>"` key cannot,
so the lookup misses and the defaults `(0, 65535)` apply.
-/

/-- Python `s.endswith(t)` on the character sequences. -/
def pyEndsWith (s t : String) : Bool :=
  t.data.isSuffixOf s.data

lemma digitChar_isDigit (m : Nat) (h : m < 10) :
    (Nat.digitChar m).isDigit = true := by
  interval_cases m <;> decide

lemma toDigitsCore_all_digits (fuel : Nat) :
    ∀ (n : Nat) (ds : List Char), (∀ ch ∈ ds, ch.isDigit = true) →
      ∀ ch ∈ Nat.toDigitsCore 10 fuel n ds, ch.isDigit = true := by
  induction fuel with
  | zero =>
    intro n ds hds ch hch
    exact hds ch hch
  | succ f ih =>
    intro n ds hds ch hch
    simp only [Nat.toDigitsCore] at hch
    have hdig : ∀ ch2 ∈ Nat.digitChar (n % 10) :: ds, ch2.isDigit = true := by
      intro ch2 hch2
      rcases List.mem_cons.mp hch2 with h | h
      · subst h
        exact digitChar_isDigit _ (Nat.mod_lt _ (by omega))
      · exact hds ch2 h
    by_cases hz : n / 10 = 0
    · rw [if_pos hz] at hch
      exact hdig ch hch
    · rw [if_neg hz] at hch
      exact ih (n / 10) (Nat.digitChar (n % 10) :: ds) hdig ch hch

lemma repr_all_digits (n : Nat) :
    ∀ ch ∈ (Nat.repr n).data, ch.isDigit = true := by
  intro ch hch
  have : (Nat.repr n).data = Nat.toDigitsCore 10 (n + 1) n [] := rfl
  rw [this] at hch
  exact toDigitsCore_all_digits (n + 1) n [] (by simp) ch hch

lemma channel_key_not_png (c : Nat) :
    pyEndsWith ("Channel_" ++ Nat.repr c) ".png" = false := by
  unfold pyEndsWith
  rw [Bool.eq_false_iff]
  intro hsuf
  have hs : ".png".data <:+ ("Channel_" ++ Nat.repr c).data :=
    List.isSuffixOf_iff_suffix.mp hsuf
  have hg : 'g' ∈ ("Channel_" ++ Nat.repr c).data :=
    hs.subset (by decide)
  rw [String.data_append] at hg
  rcases List.mem_append.mp hg with h | h
  · revert h
    decide
  · have := repr_all_digits c 'g' h
    revert this
    decide

lemma lookup_channel_key_none (store : List (String × BWEntry)) (c : Nat)
    (hkeys : ∀ k ∈ store.map Prod.fst, pyEndsWith k ".png" = true) :
    store.lookup ("Channel_" ++ Nat.repr c) = none := by
  induction store with
  | nil => rfl
  | cons kv rest ih =>
    have hk : pyEndsWith kv.1 ".png" = true := by
      apply hkeys
      simp
    rw [List.lookup]
    have hne : (("Channel_" ++ Nat.repr c) == kv.1) = false := by
      rw [beq_eq_false_iff_ne]
      intro he
      rw [← he] at hk
      rw [channel_key_not_png c] at hk
      exact Bool.false_ne_true hk
    rw [hne]
    apply ih
    intro k hkmem
    exact hkeys k (by simp [hkmem])

/-- C9: a lookup miss under `"Channel_<c>"` (or an entry lacking
`"Min"`/`"Max"`) makes the batch converter fall back to the full-range
window `vmin = 0, vmax = 65535`; and any store whose keys all end in
`".png"` — as the calibration stage produces, keying by image basename —
always misses, so the defaults are the expected behaviour at this
interface. -/
theorem channel_lookup_misses_to_defaults
    (store : List (String × BWEntry)) (c : Nat)
    (hkeys : ∀ k ∈ store.map Prod.fst, pyEndsWith k ".png" = true) :
    (∀ store2 : List (String × BWEntry), ∀ c2 : Nat,
      store2.lookup ("Channel_" ++ Nat.repr c2) = none →
      getVmin store2 c2 = 0 ∧ getVmax store2 c2 = 65535) ∧
    (∀ store2 : List (String × BWEntry), ∀ c2 : Nat, ∀ e : BWEntry,
      store2.lookup ("Channel_" ++ Nat.repr c2) = some e →
      (e.Min = none → getVmin store2 c2 = 0) ∧
      (e.Max = none → getVmax store2 c2 = 65535)) ∧
    store.lookup ("Channel_" ++ Nat.repr c) = none ∧
    getVmin store c = 0 ∧ getVmax store c = 65535 := by
  have hmiss : ∀ store2 : List (String × BWEntry), ∀ c2 : Nat,
      store2.lookup ("Channel_" ++ Nat.repr c2) = none →
      getVmin store2 c2 = 0 ∧ getVmax store2 c2 = 65535 := by
    intro store2 c2 hnone
    unfold getVmin getVmax
    rw [hnone]
    exact ⟨rfl, rfl⟩
  have hnone : store.lookup ("Channel_" ++ Nat.repr c) = none :=
    lookup_channel_key_none store c hkeys
  refine ⟨hmiss, ?_, hnone, hmiss store c hnone⟩
  intro store2 c2 e hsome
  unfold getVmin getVmax
  rw [hsome]
  constructor
  · intro hmin
    show e.Min.getD 0 = 0
    rw [hmin]
    rfl
  · intro hmax
    show e.Max.getD 65535 = 65535
    rw [hmax]
    rfl

/-- Witness for `channel_lookup_misses_to_defaults` with the store produced
by calibrating the composite `"Channel 1.png"` and channel `0`. -/
theorem channel_lookup_misses_to_defaults_witness :
    List.lookup ("Channel_" ++ Nat.repr 0)
        [("Channel 1.png", BWEntry.mk (some 120) (some 60000))] = none ∧
    getVmin [("Channel 1.png", BWEntry.mk (some 120) (some 60000))] 0 = 0 ∧
    getVmax [("Channel 1.png", BWEntry.mk (some 120) (some 60000))] 0 =
      65535 :=
  (channel_lookup_misses_to_defaults
    [("Channel 1.png", BWEntry.mk (some 120) (some 60000))] 0
    (by intro k hk; simp at hk; subst hk; decide)).2.2

/-!
## Per-frame processing and failure isolation (`process_single_frame` /
`process_nd2_images_multithreaded` in `nd2to8bitpng.py`)

`process_single_frame` wraps its whole body in `try/except`, so any raised
exception (frame retrieval failure — including an out-of-range index —,
channel `IndexError`, write failure) becomes a returned error string; an
empty or `None` frame becomes a returned warning string. The embedding makes
the acquisition and the image writer explicit `Except`-valued collaborators
in an `Env`, and the worker pool a per-task map (the pool's completion order
is nondeterministic; the embedding lists results in submission order, one
per task).
-/

/-- A raw frame returned by `nd2_data._get_frame`: either one 2D plane, or a
3D channel stack (leading axis = channels), both with flattened pixels. -/
inductive Frame where
  | plane (data : List Int)
  | stack (planes : List (List Int))
deriving Repr, DecidableEq

/-- Python `frame.size`: total element count. -/
def Frame.size : Frame → Nat
  | .plane d => d.length
  | .stack ps => (ps.map List.length).sum

/-- Source step `if frame.ndim == 3 and frame.shape[0] > 1: frame = frame[channel]`:
a stack with more than one leading plane is indexed by channel (raising an
IndexError past the end); otherwise the frame is used as is. -/
def Frame.selectChannel : Frame → Nat → Except String (List Int)
  | .plane d, _ => .ok d
  | .stack ps, c =>
    if 1 < ps.length then
      match ps.get? c with
      | some pl => .ok pl
      | none => .error "IndexError: channel index out of range"
    else .ok ps.flatten

/-- The external collaborators of one batch run: the acquisition's
dimensions and frame retrieval, and the image writer. A `.error` result
models a raised exception. -/
structure Env where
  sizes : Dimensions
  getFrame : Nat → Except String (Option Frame)
  write : String → List Int → Int → Except String Unit

/-- The frame index chosen in `process_single_frame`: the 2D formula when
`dimensions.get("Z", 1) == 1`, else the 3D formula. -/
def taskFrameIndex (dims : Dimensions) (tk : FrameTask) : Nat :=
  if dims.Z = 1 then calculate_frame_index2D dims tk.position tk.time tk.z
  else calculate_frame_index3D dims tk.position tk.time tk.z

/-- Message `f"Empty frame at P={position_idx}, T={t_idx}, Z={z_idx}"`. -/
def emptyFrameMsg (p t z : Nat) : String :=
  "Empty frame at P=" ++ Nat.repr p ++ ", T=" ++ Nat.repr t
    ++ ", Z=" ++ Nat.repr z

/-- Message `f"Error processing frame P={...}, T={...}, Z={...}, C={...}: {e}"`. -/
def errorMsg (p t z c : Nat) (e : String) : String :=
  "Error processing frame P=" ++ Nat.repr p ++ ", T=" ++ Nat.repr t
    ++ ", Z=" ++ Nat.repr z ++ ", C=" ++ Nat.repr c ++ ": " ++ e

/-- Message `f"Processed and saved: {save_path}"`. -/
def savedMsg (save_path : String) : String :=
  "Processed and saved: " ++ save_path

/-- Function `process_single_frame`: read the frame at the computed index, window it,
write it; a `None`/empty frame returns the warning string, and any raised
exception is caught and returned as the error string. Total by
construction — it never propagates a failure. -/
def process_single_frame (env : Env) (tk : FrameTask) : String :=
  let body : Except String String :=
    match env.getFrame (taskFrameIndex env.sizes tk) with
    | .error e => .error e
    | .ok none => .ok (emptyFrameMsg tk.position tk.time tk.z)
    | .ok (some fr) =>
      if fr.size = 0 then .ok (emptyFrameMsg tk.position tk.time tk.z)
      else
        match fr.selectChannel tk.channel with
        | .error e => .error e
        | .ok img =>
          match env.write tk.save_path
              (adjust_image_to_black_white img tk.vmin tk.vmax)
              tk.compress_level with
          | .error e => .error e
          | .ok _ => .ok (savedMsg tk.save_path)
  match body with
  | .ok s => s
  | .error e => errorMsg tk.position tk.time tk.z tk.channel e

/-- The worker-pool loop of `process_nd2_images_multithreaded`: one result
per submitted task. -/
def runBatch (env : Env) (tasks : List FrameTask) : List String :=
  tasks.map (process_single_frame env)

/-- Function `process_nd2_images_multithreaded` end to end: derive the compression
level, enumerate the tasks, process each. -/
def process_nd2_images_multithreaded (env : Env)
    (store : List (String × BWEntry)) (date initials output_dir : String)
    (percent : ℚ) : List String :=
  runBatch env
    (enumerateTasks env.sizes store date initials output_dir
      (compress_level_of percent))

/-- C3: the batch never loses or aborts tasks: it returns exactly one result
per task; the result of task `i` depends only on that task's own frame
retrieval and write (so a failing sibling cannot change it); and a frame
retrieval exception, an empty frame, or a write exception each yield the
failure entry carrying the task's coordinate and the error description. -/
theorem batch_failure_isolation (env env2 : Env) (tasks : List FrameTask)
    (i : Nat) (tk : FrameTask) (htk : tasks.get? i = some tk) :
    (runBatch env tasks).length = tasks.length ∧
    (runBatch env tasks).get? i = some (process_single_frame env tk) ∧
    (∀ e, env.getFrame (taskFrameIndex env.sizes tk) = Except.error e →
      (runBatch env tasks).get? i =
        some (errorMsg tk.position tk.time tk.z tk.channel e)) ∧
    (env.getFrame (taskFrameIndex env.sizes tk) = Except.ok none →
      (runBatch env tasks).get? i =
        some (emptyFrameMsg tk.position tk.time tk.z)) ∧
    (∀ fr img e, env.getFrame (taskFrameIndex env.sizes tk) =
        Except.ok (some fr) →
      fr.size ≠ 0 → fr.selectChannel tk.channel = Except.ok img →
      env.write tk.save_path
          (adjust_image_to_black_white img tk.vmin tk.vmax)
          tk.compress_level = Except.error e →
      (runBatch env tasks).get? i =
        some (errorMsg tk.position tk.time tk.z tk.channel e)) ∧
    (env.sizes = env2.sizes →
      env.getFrame (taskFrameIndex env.sizes tk) =
        env2.getFrame (taskFrameIndex env.sizes tk) →
      (∀ img lvl, env.write tk.save_path img lvl =
        env2.write tk.save_path img lvl) →
      (runBatch env tasks).get? i = (runBatch env2 tasks).get? i) := by
  have hget : (runBatch env tasks).get? i = some (process_single_frame env tk) := by
    unfold runBatch
    rw [List.get?_map, htk]
    rfl
  have hget2 : (runBatch env2 tasks).get? i =
      some (process_single_frame env2 tk) := by
    unfold runBatch
    rw [List.get?_map, htk]
    rfl
  refine ⟨by simp [runBatch], hget, ?_, ?_, ?_, ?_⟩
  · intro e he
    rw [hget]
    unfold process_single_frame
    rw [he]
  · intro he
    rw [hget]
    unfold process_single_frame
    rw [he]
  · intro fr img e hfr hsz hsel hw
    rw [hget]
    unfold process_single_frame
    rw [hfr]
    simp only [if_neg hsz, hsel, hw]
  · intro hsz hfr hw
    rw [hget, hget2]
    unfold process_single_frame
    rw [← hsz, ← hfr]
    simp only [hw]

/-- A sample environment for the batch: four frames, the first of which
fails to load. -/
def sampleEnv : Env where
  sizes := ⟨2, 2, 1, 1⟩
  getFrame := fun idx =>
    if idx = 0 then Except.error "FrameNotFound"
    else Except.ok (some (Frame.plane [0, 150, 65535]))
  write := fun _ _ _ => Except.ok ()

/-- A sample failing task at coordinate `(0, 0, 0, 0)`. -/
def sampleTask : FrameTask :=
  { position := 0, time := 0, z := 0, channel := 0,
    vmin := 0, vmax := 65535, save_path := "out/f.png", compress_level := 0 }

/-- A sample succeeding sibling task at coordinate `(1, 0, 0, 0)`. -/
def sampleTask2 : FrameTask :=
  { position := 1, time := 0, z := 0, channel := 0,
    vmin := 0, vmax := 65535, save_path := "out/g.png", compress_level := 0 }

/-- Witness for `batch_failure_isolation`: in a two-task batch whose first
task's frame retrieval raises, the batch still has two results and the first
is the coordinate-carrying error entry. -/
theorem batch_failure_isolation_witness :
    (runBatch sampleEnv [sampleTask, sampleTask2]).length = 2 ∧
    (runBatch sampleEnv [sampleTask, sampleTask2]).get? 0 =
      some (errorMsg 0 0 0 0 "FrameNotFound") := by
  have h := batch_failure_isolation sampleEnv sampleEnv
    [sampleTask, sampleTask2] 0 sampleTask rfl
  exact ⟨h.1, h.2.2.1 "FrameNotFound" rfl⟩

/-!
## Composite grid builder (`create_composite_images_for_all_channels` in
`ND2filecreatecomposite.py`)

For one channel, the source collects `all_time_images`: one list of loaded
images per position directory that contributed at least one matching file
(positions with no files are skipped beforehand). It then takes
`min_rows = min(len(images) for images in all_time_images)` as the row
count, one column per contributing position, sizes the canvas from the
first image of the first position, zero-fills it, and writes image
`position_images[row_idx]` into cell `(row_idx, col_idx)` using that
image's own shape for the offsets, rows outer and columns inner, later
writes overwriting earlier ones. The embedding keeps the canvas as a pixel
function; `none` models the source's `IndexError` on
`all_time_images[0][0]` (impossible for the source's inputs, where every
contributing position has at least one image) and the source's skip of a
channel with no contributing positions.
-/

/-- One loaded image: its shape and its pixels. -/
structure Img where
  height : Nat
  width : Nat
  pixel : Nat → Nat → Int

/-- One numpy cell assignment
`composite[r0 : r0 + h, c0 : c0 + w] = img` with
`r0 = row_idx * img.height`, `c0 = col_idx * img.width`. -/
def writeCell (canvas : Nat → Nat → Int) (img : Img) (row_idx col_idx : Nat) :
    Nat → Nat → Int :=
  fun r c =>
    if row_idx * img.height ≤ r ∧ r < row_idx * img.height + img.height ∧
        col_idx * img.width ≤ c ∧ c < col_idx * img.width + img.width then
      img.pixel (r - row_idx * img.height) (c - col_idx * img.width)
    else canvas r c

/-- One row of the fill loop: `for col_idx, position_images in
enumerate(all_time_images)`, writing `position_images[row_idx]` when that
position has enough images and skipping it otherwise, with `col_idx`
carried explicitly. -/
def fillRow (row_idx : Nat) : Nat → List (List Img) → (Nat → Nat → Int) →
    Nat → Nat → Int
  | _, [], cv => cv
  | col_idx, imgs :: rest, cv =>
    fillRow row_idx (col_idx + 1) rest
      (match imgs.get? row_idx with
       | none => cv
       | some img => writeCell cv img row_idx col_idx)

/-- The whole fill loop, over an all-zero canvas, rows outer. -/
def fillComposite (all : List (List Img)) (n_rows : Nat) : Nat → Nat → Int :=
  (List.range n_rows).foldl
    (fun cv row_idx => fillRow row_idx 0 all cv)
    (fun _ _ => 0)

/-- The composite produced for one channel: grid extents, canvas shape and
canvas pixels. -/
structure Composite where
  n_rows : Nat
  n_cols : Nat
  height : Nat
  width : Nat
  pixel : Nat → Nat → Int

/-- The per-channel composite computation of
`create_composite_images_for_all_channels`, on the collected
`all_time_images`. -/
def create_composite_for_channel (all : List (List Img)) : Option Composite :=
  match all with
  | [] => none
  | first :: rest =>
    match first with
    | [] => none
    | sample :: _ =>
      let min_rows := (rest.map List.length).foldl Nat.min first.length
      some
        { n_rows := min_rows,
          n_cols := (first :: rest).length,
          height := min_rows * sample.height,
          width := (first :: rest).length * sample.width,
          pixel := fillComposite (first :: rest) min_rows }

lemma foldl_min_le (a : Nat) (l : List Nat) :
    l.foldl Nat.min a ≤ a ∧ ∀ x ∈ l, l.foldl Nat.min a ≤ x := by
  induction l generalizing a with
  | nil => simp
  | cons b bs ih =>
    obtain ⟨h1, h2⟩ := ih (Nat.min a b)
    refine ⟨le_trans h1 (Nat.min_le_left a b), ?_⟩
    intro x hx
    rcases List.mem_cons.mp hx with h | h
    · rw [h]
      exact le_trans h1 (Nat.min_le_right a b)
    · exact h2 x h

lemma foldl_min_mem (a : Nat) (l : List Nat) :
    l.foldl Nat.min a = a ∨ l.foldl Nat.min a ∈ l := by
  induction l generalizing a with
  | nil => simp
  | cons b bs ih =>
    rcases ih (Nat.min a b) with h | h
    · rcases Nat.le_total a b with hab | hab
      · left
        have he : Nat.min a b = a := Nat.min_eq_left hab
        rw [List.foldl_cons, h, he]
      · right
        have he : Nat.min a b = b := Nat.min_eq_right hab
        rw [List.foldl_cons, h, he]
        simp
    · right
      rw [List.foldl_cons]
      exact List.mem_cons_of_mem b h

lemma foldl_range_congr {α : Type} (n : Nat) (f g : α → Nat → α) (init : α)
    (h : ∀ acc r, r < n → f acc r = g acc r) :
    (List.range n).foldl f init = (List.range n).foldl g init := by
  induction n generalizing init with
  | zero => rfl
  | succ m ih =>
    rw [List.range_succ, List.foldl_append, List.foldl_append]
    rw [ih init (fun acc r hr => h acc r (Nat.lt_succ_of_lt hr))]
    simp only [List.foldl_cons, List.foldl_nil]
    exact h _ m (Nat.lt_succ_self m)

lemma fillRow_take (r n col : Nat) (all : List (List Img))
    (cv : Nat → Nat → Int) (hr : r < n) :
    fillRow r col (all.map (fun imgs => imgs.take n)) cv =
      fillRow r col all cv := by
  induction all generalizing col cv with
  | nil => rfl
  | cons imgs rest ih =>
    simp only [List.map_cons, fillRow]
    rw [List.get?_take hr]
    exact ih (col + 1) _

lemma fillComposite_take (all : List (List Img)) (n_rows : Nat) :
    fillComposite (all.map (fun imgs => imgs.take n_rows)) n_rows =
      fillComposite all n_rows := by
  unfold fillComposite
  apply foldl_range_congr
  intro acc r hr
  exact fillRow_take r n_rows 0 all acc hr

/-- C10: the per-channel composite uses the minimum per-position image count
as its row count (images beyond it are dropped — the canvas only depends on
the first `n_rows` images of each position), one column per contributing
position, and a canvas of shape `(min_rows * height, n_positions * width)`
taken from the first image of the first contributing position. -/
theorem composite_min_rows_cols_shape (all : List (List Img))
    (comp : Composite) (hc : create_composite_for_channel all = some comp) :
    comp.n_cols = all.length ∧
    (∀ imgs ∈ all, comp.n_rows ≤ imgs.length) ∧
    (∃ imgs ∈ all, comp.n_rows = imgs.length) ∧
    (∀ firstImgs sample, all.head? = some firstImgs →
      firstImgs.head? = some sample →
      comp.height = comp.n_rows * sample.height ∧
      comp.width = all.length * sample.width) ∧
    comp.pixel =
      fillComposite (all.map (fun imgs => imgs.take comp.n_rows))
        comp.n_rows := by
  match all with
  | [] => exact absurd hc (by simp [create_composite_for_channel])
  | [] :: rest => exact absurd hc (by simp [create_composite_for_channel])
  | (sample :: firstRest) :: rest =>
    have hc2 : some
        ({ n_rows := (rest.map List.length).foldl Nat.min
              (sample :: firstRest).length,
           n_cols := ((sample :: firstRest) :: rest).length,
           height := (rest.map List.length).foldl Nat.min
               (sample :: firstRest).length * sample.height,
           width := ((sample :: firstRest) :: rest).length * sample.width,
           pixel := fillComposite ((sample :: firstRest) :: rest)
             ((rest.map List.length).foldl Nat.min
               (sample :: firstRest).length) } : Composite) = some comp := by
      rw [← hc]
      rfl
    have hcomp := (Option.some.inj hc2).symm
    subst hcomp
    obtain ⟨hle, hall⟩ :=
      foldl_min_le (sample :: firstRest).length (rest.map List.length)
    refine ⟨rfl, ?_, ?_, ?_, (fillComposite_take _ _).symm⟩
    · intro imgs hmem
      rcases List.mem_cons.mp hmem with h | h
      · subst h
        exact hle
      · exact hall imgs.length (List.mem_map_of_mem List.length h)
    · rcases foldl_min_mem (sample :: firstRest).length
        (rest.map List.length) with h | h
      · exact ⟨sample :: firstRest, List.mem_cons_self _ _, h⟩
      · obtain ⟨imgs, hmem, hlen⟩ := List.mem_map.mp h
        exact ⟨imgs, List.mem_cons_of_mem _ hmem, hlen.symm⟩
    · intro firstImgs sample2 h1 h2
      simp only [List.head?] at h1
      injection h1 with h1
      subst h1
      simp only [List.head?] at h2
      injection h2 with h2
      subst h2
      exact ⟨rfl, rfl⟩

/-- Three sample images of distinct shapes and contents. -/
def sampleImgA : Img := ⟨2, 3, fun r c => (r * 10 + c : Int)⟩

/-- Second sample image (dropped from the composite: its position already
contributes the minimum of one image through its sibling). -/
def sampleImgB : Img := ⟨2, 3, fun _ _ => (7 : Int)⟩

/-- Third sample image, alone in the second position. -/
def sampleImgC : Img := ⟨2, 3, fun _ _ => (9 : Int)⟩

/-- Two contributing positions: the first with two images, the second with
one. -/
def sampleAll : List (List Img) := [[sampleImgA, sampleImgB], [sampleImgC]]

/-- The composite the embedding computes on `sampleAll`. -/
def sampleComp : Composite :=
  { n_rows := 1, n_cols := 2, height := 2, width := 6,
    pixel := fillComposite sampleAll 1 }

/-- Witness for `composite_min_rows_cols_shape` on `sampleAll`. -/
theorem composite_min_rows_cols_shape_witness :
    sampleComp.n_cols = 2 ∧
    (∀ imgs ∈ sampleAll, sampleComp.n_rows ≤ imgs.length) ∧
    (∃ imgs ∈ sampleAll, sampleComp.n_rows = imgs.length) := by
  have h := composite_min_rows_cols_shape sampleAll sampleComp rfl
  exact ⟨h.1, h.2.1, h.2.2.1⟩

/-- The constant-valued 100 × 100 frame of position `i`. -/
def gridImg (i : Nat) : Img := ⟨100, 100, fun _ _ => (i : Int)⟩

/-- Eleven positions, each contributing a single 100 × 100 frame whose
pixels all equal its position index. -/
def elevenPositions : List (List Img) :=
  (List.range 11).map (fun i => [gridImg i])

/-- C7 counterexample: on 11 position frames of identical shape
`(100, 100)` the composite canvas has shape `(100, 1100)` — not the
`(200, 1000)` the claim's 10-per-row wrap would give — and the 11th frame
(position index 10) sits at grid row 0, column 10 (its pixels appear at
canvas column 1000), not at row 1, column 0 (canvas row 100 is outside the
canvas and still zero). -/
theorem composite_no_row_wrap_counterexample :
    ((create_composite_for_channel elevenPositions).map
        (fun comp => (comp.height, comp.width)) = some (100, 1100)) ∧
    ((create_composite_for_channel elevenPositions).map
        (fun comp => (comp.height, comp.width)) ≠ some (200, 1000)) ∧
    ((create_composite_for_channel elevenPositions).map
        (fun comp => comp.pixel 0 1000) = some 10) ∧
    ((create_composite_for_channel elevenPositions).map
        (fun comp => comp.pixel 100 0) = some 0) := by
  refine ⟨by decide, by decide, by decide, by decide⟩

/-- C7 amended: the composite builder has no positions-per-row bound; it
lays the 11 equal-shape position frames out as one row of 11 columns, on a
`(1 * 100, 11 * 100)` canvas, position `i` occupying columns
`[i * 100, (i+1) * 100)` of row block 0. -/
theorem composite_eleven_positions_layout :
    ((create_composite_for_channel elevenPositions).map
        (fun comp => (comp.n_rows, comp.n_cols, comp.height, comp.width)) =
      some (1, 11, 100, 1100)) ∧
    ((create_composite_for_channel elevenPositions).map
        (fun comp => comp.pixel 0 0) = some 0) ∧
    ((create_composite_for_channel elevenPositions).map
        (fun comp => comp.pixel 50 550) = some 5) ∧
    ((create_composite_for_channel elevenPositions).map
        (fun comp => comp.pixel 99 1099) = some 10) := by
  refine ⟨by decide, by decide, by decide, by decide⟩

end ND2
